import Mathlib

/-!
Verification of the documentation tooling of the `rush` repository
(`tasks/util/docs.py` and `tasks/build.py`).

The Python functions are shallowly embedded: text is modelled as `List Char`
(the repository runs on a POSIX platform, so `os.linesep` is the single
character `'\n'` and text-mode I/O performs no newline translation), file
contents are explicit arguments and results, and results of external process
invocations (`ctx.run`) are explicit input records.  Fallible functions
return `Except`.
-/

namespace Rush

/-- Text (a file's contents or a single line) as a list of characters. -/
abbrev Str := List Char

/-- Python `str.isspace` for a single character: the whitespace characters
stripped by `str.strip()` / `str.lstrip()`. -/
def pyIsSpace (c : Char) : Bool :=
  c = ' ' || c = '\t' || c = '\n' || c = '\r' || c = '\x0b' || c = '\x0c'

/-- Python `str.lstrip()`: drop leading whitespace. -/
def lstripWs (s : Str) : Str := s.dropWhile pyIsSpace

/-- Python `str.strip()`: drop leading and trailing whitespace. -/
def stripWs (s : Str) : Str :=
  ((s.dropWhile pyIsSpace).reverse.dropWhile pyIsSpace).reverse

/-- Python `str.lstrip('/')`: drop leading slash characters
(used on doc-comment lines in `analyze_rust_module`). -/
def lstripSlash (s : Str) : Str := s.dropWhile (fun c => c = '/')

/-- Split a text on the newline character; auxiliary accumulator form. -/
def splitNlAux (cur : Str) : Str → List Str
  | [] => [cur.reverse]
  | c :: rest =>
      if c = '\n' then cur.reverse :: splitNlAux [] rest
      else splitNlAux (c :: cur) rest

/-- Python `f.readlines()` followed by dropping the line terminators:
the list of lines of the file, where a trailing newline does not produce
an extra empty line, and an empty file has no lines. -/
def pyReadLines (s : Str) : List Str :=
  let parts := splitNlAux [] s
  if parts.getLast? = some ([] : Str) then parts.dropLast else parts

/-- Python's `in` operator on strings: substring containment. -/
def isSubstrOf (needle : Str) : Str → Bool
  | [] => needle.isPrefixOf ([] : Str)
  | c :: rest => needle.isPrefixOf (c :: rest) || isSubstrOf needle rest

/-- Python `sep.join(xs)`. -/
def joinSep (sep : Str) : List Str → Str
  | [] => []
  | [x] => x
  | x :: y :: rest => x ++ sep ++ joinSep sep (y :: rest)

/-- `os.linesep` on the POSIX platforms this tooling targets. -/
def nl : Str := ['\n']

/-- The marker-index scan of `insert_api_docs` (docs.py lines 92-97):
one pass over the lines, recording for each marker the index of the line
containing it; a later match overwrites an earlier one. -/
def markerIndices (beginM endM : Str) (lines : List Str) :
    Option Nat × Option Nat :=
  lines.enum.foldl
    (fun acc p =>
      ((if isSubstrOf beginM p.2 then some p.1 else acc.1),
       (if isSubstrOf endM p.2 then some p.1 else acc.2)))
    (none, none)

/-- The stripped line list that `insert_api_docs` scans
(docs.py line 88). -/
def strippedLines (content : Str) : List Str :=
  (pyReadLines content).map stripWs

/-- The content reconstruction of `insert_api_docs` (docs.py lines 86-113):
read the file's lines, strip each, locate the marker lines, and reassemble
the text as stripped-prefix / docs / stripped-suffix joined by `os.linesep`.
Raising `ValueError` is modelled as returning `Except.error`. -/
def spliceContent (docs beginM endM content : Str) : Except String Str :=
  let targetLines := strippedLines content
  match markerIndices beginM endM targetLines with
  | (some b, some e) =>
      if b = e then .error "empty region"
      else .ok (joinSep nl
          [stripWs (joinSep nl (targetLines.take (b + 1))),
           docs,
           stripWs (joinSep nl (targetLines.drop e))])
  | _ => .error "begin or end marker not found"

/-- The effect of `f.seek(0); f.write(new)` on a file opened `r+` without
truncation (docs.py lines 115-116): bytes of the original content beyond
the written length survive. -/
def writeNoTruncate (orig new : Str) : Str := new ++ orig.drop new.length

/-- `insert_api_docs(modules, into, between)` (docs.py lines 67-116), with
the rendered Markdown of each module as an opaque text block and the target
file's state as `Option Str` (`none`: the file does not exist).  An empty
module sequence returns before the file is opened; otherwise the file is
read, spliced and written back without truncation.  `ValueError` and the
`IOError` of opening a missing file are `Except.error`. -/
def insertApiDocs (blocks : List Str) (beginM endM : Str)
    (file : Option Str) : Except String (Option Str) :=
  if blocks.isEmpty then .ok file
  else
    match file with
    | none => .error "IOError: file not found"
    | some content =>
        match spliceContent (joinSep nl blocks) beginM endM content with
        | .ok newContent => .ok (some (writeNoTruncate content newContent))
        | .error e => .error e

/-- The target file's state after a call to `insert_api_docs`: on an
exception the write at docs.py line 116 is never reached, so the file keeps
its previous state. -/
def fileAfterInsert (blocks : List Str) (beginM endM : Str)
    (file : Option Str) : Option Str :=
  match insertApiDocs blocks beginM endM file with
  | .ok f => f
  | .error _ => file

/-! ## The Rust-module scraper (`analyze_rust_module`, docs.py lines 140-217)

The embedding covers the analysis of a single module file whose stem is not
`mod` (the `mod.rs` aggregator case walks the file system for sibling
files, which is outside the claims considered here); for such a file the
submodule list is empty and the module name is the file stem. -/

/-- `Function` record of docs.py lines 55-64: the `arguments` mapping is an
ordered association list and `returns` an optional description. -/
structure Function where
  name : Str
  description : Str
  arguments : List (Str × Str)
  returns : Option Str
deriving DecidableEq, Repr

/-- A single character of Python's `\w` class, as matched by the
`re` pattern of docs.py line 176 under Python 2 defaults. -/
def isWordChar (c : Char) : Bool := c.isAlpha || c.isDigit || c = '_'

/-- Require at least one whitespace character and consume the whole
whitespace run: the `\s+` parts of the pattern at docs.py line 176. -/
def dropWs1 : Str → Option Str
  | [] => none
  | c :: rest =>
      if pyIsSpace c then some (rest.dropWhile pyIsSpace) else none

/-- Require a literal token at the front of the text. -/
def dropToken (tok s : Str) : Option Str :=
  if tok.isPrefixOf s then some (s.drop tok.length) else none

/-- `re.match(r'pub\s+fn\s+(\w+)\(', line)` (docs.py line 176): anchored at
the start of the raw declaration line, returning the captured name. -/
def extractFnName (line : Str) : Option Str := do
  let s ← dropToken "pub".data line
  let s ← dropWs1 s
  let s ← dropToken "fn".data s
  let s ← dropWs1 s
  let name := s.takeWhile isWordChar
  let rest := s.dropWhile isWordChar
  if name = ([] : Str) then none
  else
    match rest with
    | '(' :: _ => some name
    | _ => none

/-- One collected doc-comment line (docs.py line 192):
`line.lstrip('/').strip() or os.linesep`. -/
def procDocLine (line : Str) : Str :=
  let s := stripWs (lstripSlash line)
  if s = ([] : Str) then nl else s

/-- The backward doc-comment scan `for j in range(idx - 1, 0, -1)`
(docs.py lines 187-193), producing the collected lines in the descending
order of the loop.  The argument is the current loop index `j`; the loop
bound excludes `j = 0`, so the first line of the file is never examined. -/
def collectDocDesc (lines : List Str) : Nat → List Str
  | 0 => []
  | j + 1 =>
      let line := lstripWs (lines.getD (j + 1) ([] : Str))
      if ("///".data).isPrefixOf line then
        procDocLine line :: collectDocDesc lines j
      else []

/-- The docstring extracted for a declaration at line index `idx`
(docs.py lines 186-195): the backward scan reversed into source order and
concatenated with no separator. -/
def docstringAt (lines : List Str) (idx : Nat) : Str :=
  joinSep ([] : Str) (collectDocDesc lines (idx - 1)).reverse

/-- The prefix test selecting candidate declaration lines
(docs.py lines 170-171): `line.lstrip().startswith('pub fn')`. -/
def isPubFnLine (line : Str) : Bool :=
  ("pub fn".data).isPrefixOf (lstripWs line)

/-- The declaration loop of `analyze_rust_module` (docs.py lines 169-207):
accepted functions in file order together with the declaration lines that
triggered the `logging.warning` at line 178 (prefix match without a full
pattern match). -/
def analyzeStep (lines : List Str) (acc : List Function × List Str)
    (p : Nat × Str) : List Function × List Str :=
  if isPubFnLine p.2 then
    match extractFnName p.2 with
    | none => (acc.1, acc.2 ++ [p.2])
    | some fnName =>
        (acc.1 ++ [⟨fnName, docstringAt lines p.1, [], none⟩], acc.2)
  else acc

/-- The declaration loop of `analyze_rust_module` (docs.py lines 169-207),
one `analyzeStep` per line. -/
def analyzeLines (lines : List Str) : List Function × List Str :=
  lines.enum.foldl (analyzeStep lines) (([] : List Function), ([] : List Str))

/-- `Module` record of docs.py lines 43-52, for a non-aggregator file:
the name is the file stem and there are no submodules. -/
structure Module where
  name : Str
  functions : List Function
deriving DecidableEq, Repr

/-- `analyze_rust_module(path)` on a file with the given stem and contents
(stem ≠ "mod"): read the lines and run the declaration loop; the second
component carries the warned-about declaration lines. -/
def analyzeRustModule (stem content : Str) : Module × List Str :=
  let res := analyzeLines (pyReadLines content)
  (⟨stem, res.1⟩, res.2)

/-- The `Function` the declaration loop produces for an indexed line, when
the line passes both the prefix test and the name pattern. -/
def fnOf (lines : List Str) (p : Nat × Str) : Option Function :=
  if isPubFnLine p.2 then
    (extractFnName p.2).map (fun n => ⟨n, docstringAt lines p.1, [], none⟩)
  else none

/-- A declaration line that triggers the warning of docs.py line 178:
prefix match without a full pattern match. -/
def isSpuriousDecl (line : Str) : Bool :=
  isPubFnLine line && (extractFnName line).isNone

/-! ## Index combinators

Independent descriptions of line selection, used to characterize the
single-pass scans of `insert_api_docs` and of the `bin` build task. -/

/-- The first index of a line satisfying `p`. -/
def firstIdxP (p : Str → Bool) : List Str → Option Nat
  | [] => none
  | l :: ls => if p l then some 0 else (firstIdxP p ls).map (· + 1)

/-- The last index of a line satisfying `p`: a hit in the tail (a later
line) takes precedence over the head. -/
def lastIdxP (p : Str → Bool) : List Str → Option Nat
  | [] => none
  | l :: ls =>
      match lastIdxP p ls with
      | some j => some (j + 1)
      | none => if p l then some 0 else none

/-- The last line index containing the marker as a substring. -/
def lastContainingIdx (marker : Str) (lines : List Str) : Option Nat :=
  lastIdxP (isSubstrOf marker) lines

/-- The boundary selection that the specification describes for
`insert_api_docs`: the first line containing the begin delimiter, then the
first line after it containing the end delimiter. -/
def firstMarkersSpec (beginM endM : Str) (lines : List Str) :
    Option Nat × Option Nat :=
  match firstIdxP (isSubstrOf beginM) lines with
  | none => (none, none)
  | some b =>
      (some b,
       (firstIdxP (isSubstrOf endM) (lines.drop (b + 1))).map
         (fun j => b + 1 + j))

/-! ## The binary build task (`bin`, build.py lines 42-85)

External process invocations are modelled by their observable result:
invoke's `Result` has `ok` true exactly when the process exited with
status zero. -/

/-- The observable outcome of an external command run through `ctx.run`
with `warn` semantics: exit status and captured standard output. -/
structure RunResult where
  returnCode : Int
  stdout : Str
deriving DecidableEq, Repr

/-- invoke's `Result.ok`: the command exited with status zero. -/
def RunResult.ok (r : RunResult) : Bool := r.returnCode == 0

/-- A README line opening a Markdown heading
(`line.startswith('#')`, build.py line 63). -/
def isHeading (line : Str) : Bool := ("#".data).isPrefixOf line

/-- A heading line containing the usage marker
(build.py lines 63-66). -/
def isUsageHeading (line : Str) : Bool :=
  isHeading line && isSubstrOf ("# Usage".data) line

/-- The heading scan of the `bin` task (build.py lines 61-69): skip
non-heading lines; until the begin boundary is found, look for a heading
containing `# Usage`; afterwards record every heading line's index, a later
one overwriting an earlier one. -/
def usageStep (acc : Option Nat × Option Nat) (p : Nat × Str) :
    Option Nat × Option Nat :=
  if isHeading p.2 then
    match acc.1 with
    | none =>
        if isSubstrOf ("# Usage".data) p.2 then (some p.1, acc.2)
        else acc
    | some _ => (acc.1, some p.1)
  else acc

/-- The heading scan of the `bin` task (build.py lines 61-69), one
`usageStep` per README line. -/
def usageMarkerIndices (lines : List Str) : Option Nat × Option Nat :=
  lines.enum.foldl usageStep (none, none)

/-- The end boundary as the specification describes it: the first heading
line strictly after the begin boundary `b`. -/
def firstHeadingAfter (b : Nat) (lines : List Str) : Option Nat :=
  (firstIdxP isHeading (lines.drop (b + 1))).map (fun j => b + 1 + j)

/-- The end boundary the code computes: the last heading line strictly
after the begin boundary `b`. -/
def lastHeadingAfter (b : Nat) (lines : List Str) : Option Nat :=
  (lastIdxP isHeading (lines.drop (b + 1))).map (fun j => b + 1 + j)

/-- Outcome of the usage-inlining part of the `bin` task: an early
non-zero return, or the README's new contents. -/
inductive BinOutcome where
  | exitCode (code : Int)
  | updated (readme : Str)
deriving DecidableEq, Repr

/-- The usage-inlining step of `bin` (build.py lines 49-85): abort with
the binary's own status if it failed; otherwise strip the README's lines,
locate the heading boundaries, return 2 when either is missing, and else
reassemble the README with the usage banner (surrounded by blank lines)
between the boundaries.  This write does truncate (build.py line 84). -/
def binUsageStep (binary : RunResult) (readme : Str) : BinOutcome :=
  if !binary.ok then .exitCode binary.returnCode
  else
    let usage := stripWs binary.stdout
    let readmeLines := strippedLines readme
    match usageMarkerIndices readmeLines with
    | (some b, some e) =>
        .updated (joinSep nl
          [stripWs (joinSep nl (readmeLines.take (b + 1))),
           ([] : Str), usage, ([] : Str),
           stripWs (joinSep nl (readmeLines.drop e))])
    | _ => .exitCode 2

/-! ## The compiler version check (`ensure_rustc_version`,
build.py lines 171-184) -/

/-- Python `s.split()` (split on whitespace runs, no empty tokens);
auxiliary accumulator form. -/
def splitWsAux (cur : Str) : Str → List Str
  | [] => [cur.reverse]
  | c :: rest =>
      if pyIsSpace c then cur.reverse :: splitWsAux [] rest
      else splitWsAux (c :: cur) rest

/-- Python `s.split(None)`: whitespace-separated tokens. -/
def pySplitWs (s : Str) : List Str :=
  (splitWsAux [] s).filter (fun t => t ≠ ([] : Str))

/-- The unpacking `_, version, _ = rustc_v.stdout.split(None, 2)`
(build.py line 178): the second whitespace-separated token, provided the
split yields the three values the unpacking demands (otherwise Python
raises `ValueError`). -/
def rustcVersionToken (stdout : Str) : Option Str :=
  match pySplitWs stdout with
  | _ :: v :: _ :: _ => some v
  | _ => none

/-- Split a text on a separator character; auxiliary accumulator form. -/
def splitChAux (sep : Char) (cur : Str) : Str → List Str
  | [] => [cur.reverse]
  | c :: rest =>
      if c = sep then cur.reverse :: splitChAux sep [] rest
      else splitChAux sep (c :: cur) rest

/-- A run of decimal digits as a number; `none` on an empty or
non-numeric text. -/
def parseDigits (s : Str) : Option Nat :=
  if s = ([] : Str) then none
  else if s.all (fun c => c.isDigit) then
    some (s.foldl (fun n c => 10 * n + (c.toNat - 48)) 0)
  else none

/-- A semantic version as the `semver` package of build.py line 179 reads
it: `major.minor.patch` with an optional nonempty prerelease tag after a
dash.  (Build-metadata suffixes are outside the fragment used here.) -/
structure SemVer where
  major : Nat
  minor : Nat
  patch : Nat
  prerelease : Option Str
deriving DecidableEq, Repr

/-- Parse a version string of the form `X.Y.Z` or `X.Y.Z-tag`. -/
def parseSemVer (s : Str) : Option SemVer := do
  let core := s.takeWhile (fun c => c ≠ '-')
  let rest := s.dropWhile (fun c => c ≠ '-')
  let tag ← match rest with
    | [] => some (none : Option Str)
    | [_] => none
    | _ :: tl => some (some tl)
  match splitChAux '.' [] core with
  | [a, b, c] => do
      let x ← parseDigits a
      let y ← parseDigits b
      let z ← parseDigits c
      pure ⟨x, y, z, tag⟩
  | _ => none

/-- `v` is strictly below the plain release version `m` in semver order:
lexicographically below on the numeric triple, or equal to it with a
prerelease tag. -/
def semverBelow (v : SemVer) (m : Nat × Nat × Nat) : Bool :=
  if v.major ≠ m.1 then decide (v.major < m.1)
  else if v.minor ≠ m.2.1 then decide (v.minor < m.2.1)
  else if v.patch ≠ m.2.2 then decide (v.patch < m.2.2)
  else v.prerelease.isSome

/-- `MIN_RUSTC_VERSION` (build.py line 24). -/
def minRustcVersion : Nat × Nat × Nat := (1, 10, 0)

/-- Outcome of `ensure_rustc_version`: a `sys.exit` with the given status,
an uncaught exception (malformed version output), or success. -/
inductive CheckOutcome where
  | exit (code : Nat)
  | crash
  | passed
deriving DecidableEq, Repr

/-- `ensure_rustc_version(ctx)` (build.py lines 171-184) over the result
of `ctx.run('rustc --version')`: exit 127 when the compiler invocation
failed, exit 1 when the reported version is below `MIN_RUSTC_VERSION`,
success otherwise; a version string the `semver` package cannot read
raises an uncaught exception. -/
def ensureRustcVersion (rustcV : RunResult) : CheckOutcome :=
  if !rustcV.ok then .exit 127
  else
    match rustcVersionToken rustcV.stdout with
    | none => .crash
    | some tok =>
        match parseSemVer tok with
        | none => .crash
        | some v =>
            if semverBelow v minRustcVersion then .exit 1 else .passed

/-! ## Helper lemmas: the single-pass scans are first/last-index searches -/

theorem lastIdxP_none (p : Str → Bool) :
    ∀ (ls : List Str), lastIdxP p ls = none →
      ∀ (k : Nat) (hk : k < ls.length), p (ls.get ⟨k, hk⟩) = false := by
  intro ls
  induction ls with
  | nil => intro _ k hk; simp at hk
  | cons l ls ih =>
      intro h k hk
      unfold lastIdxP at h
      cases hrec : lastIdxP p ls with
      | some j => rw [hrec] at h; simp at h
      | none =>
          rw [hrec] at h
          by_cases hp : p l
          · simp [hp] at h
          · match k, hk with
            | 0, _ => simpa using hp
            | k' + 1, hk => exact ih hrec k' (Nat.lt_of_succ_lt_succ hk)

theorem lastIdxP_sound (p : Str → Bool) :
    ∀ (ls : List Str) (i : Nat), lastIdxP p ls = some i →
      ∃ h : i < ls.length, p (ls.get ⟨i, h⟩) = true := by
  intro ls
  induction ls with
  | nil => intro i h; simp [lastIdxP] at h
  | cons l ls ih =>
      intro i h
      unfold lastIdxP at h
      cases hrec : lastIdxP p ls with
      | some j =>
          rw [hrec] at h
          injection h with h
          subst h
          obtain ⟨hj, hpj⟩ := ih j hrec
          exact ⟨Nat.succ_lt_succ hj, hpj⟩
      | none =>
          rw [hrec] at h
          by_cases hp : p l
          · simp [hp] at h
            subst h
            exact ⟨Nat.succ_pos _, by simpa using hp⟩
          · simp [hp] at h

theorem lastIdxP_max (p : Str → Bool) :
    ∀ (ls : List Str) (i : Nat), lastIdxP p ls = some i →
      ∀ (k : Nat) (hk : k < ls.length), i < k → p (ls.get ⟨k, hk⟩) = false := by
  intro ls
  induction ls with
  | nil => intro i h; simp [lastIdxP] at h
  | cons l ls ih =>
      intro i h k hk hik
      unfold lastIdxP at h
      cases hrec : lastIdxP p ls with
      | some j =>
          rw [hrec] at h
          injection h with h
          subst h
          match k, hk with
          | 0, _ => omega
          | k' + 1, hk =>
              exact ih j hrec k' (Nat.lt_of_succ_lt_succ hk)
                (Nat.lt_of_succ_lt_succ hik)
      | none =>
          rw [hrec] at h
          by_cases hp : p l
          · simp [hp] at h
            subst h
            match k, hk with
            | 0, _ => omega
            | k' + 1, hk =>
                exact lastIdxP_none p ls hrec k' (Nat.lt_of_succ_lt_succ hk)
          · simp [hp] at h

theorem lastIdxP_unique (p : Str → Bool) (ls : List Str) (b : Nat)
    (hb : b < ls.length) (hpb : p (ls.get ⟨b, hb⟩) = true)
    (huniq : ∀ (i : Nat) (h : i < ls.length), p (ls.get ⟨i, h⟩) = true → i = b) :
    lastIdxP p ls = some b := by
  cases hlast : lastIdxP p ls with
  | none =>
      have hf := lastIdxP_none p ls hlast b hb
      rw [hf] at hpb
      exact Bool.noConfusion hpb
  | some j =>
      obtain ⟨hj, hpj⟩ := lastIdxP_sound p ls j hlast
      rw [huniq j hj hpj]

theorem markerFold (pB pE : Str → Bool) :
    ∀ (ls : List Str) (k : Nat) (acc : Option Nat × Option Nat),
      (List.enumFrom k ls).foldl
        (fun acc p =>
          ((if pB p.2 then some p.1 else acc.1),
           (if pE p.2 then some p.1 else acc.2))) acc
      = ((match lastIdxP pB ls with
          | some j => some (k + j)
          | none => acc.1),
         (match lastIdxP pE ls with
          | some j => some (k + j)
          | none => acc.2)) := by
  intro ls
  induction ls with
  | nil => intro k acc; simp [lastIdxP]
  | cons l ls ih =>
      intro k acc
      rw [List.enumFrom_cons, List.foldl_cons, ih]
      have hcB : lastIdxP pB (l :: ls) = match lastIdxP pB ls with
        | some j => some (j + 1)
        | none => if pB l then some 0 else none := rfl
      have hcE : lastIdxP pE (l :: ls) = match lastIdxP pE ls with
        | some j => some (j + 1)
        | none => if pE l then some 0 else none := rfl
      rw [hcB, hcE]
      cases hB : lastIdxP pB ls <;> cases hE : lastIdxP pE ls <;>
        by_cases hpB : pB l <;> by_cases hpE : pE l <;>
          simp [hpB, hpE, Nat.add_assoc, Nat.add_comm, Nat.add_left_comm]

theorem markerIndices_eq_last (beginM endM : Str) (lines : List Str) :
    markerIndices beginM endM lines =
      (lastContainingIdx beginM lines, lastContainingIdx endM lines) := by
  unfold markerIndices lastContainingIdx
  rw [show lines.enum = List.enumFrom 0 lines from rfl,
      markerFold (isSubstrOf beginM) (isSubstrOf endM) lines 0 (none, none)]
  cases hB : lastIdxP (isSubstrOf beginM) lines <;>
    cases hE : lastIdxP (isSubstrOf endM) lines <;> simp

theorem usageStep_some (b : Nat) (y : Option Nat) (k : Nat) (l : Str) :
    usageStep (some b, y) (k, l) =
      (some b, if isHeading l then some k else y) := by
  by_cases hH : isHeading l <;> simp [usageStep, hH]

theorem usageStep_none (y : Option Nat) (k : Nat) (l : Str) :
    usageStep (none, y) (k, l) =
      if isUsageHeading l then (some k, y) else (none, y) := by
  by_cases hH : isHeading l
  · by_cases hU : isSubstrOf ("# Usage".data) l <;>
      simp [usageStep, isUsageHeading, hH, hU]
  · simp [usageStep, isUsageHeading, hH]

theorem usageFoldPhase2 :
    ∀ (ls : List Str) (k b : Nat) (y : Option Nat),
      (List.enumFrom k ls).foldl usageStep (some b, y)
      = (some b,
         match lastIdxP isHeading ls with
         | some j => some (k + j)
         | none => y) := by
  intro ls
  induction ls with
  | nil => intro k b y; simp [lastIdxP]
  | cons l ls ih =>
      intro k b y
      rw [List.enumFrom_cons, List.foldl_cons, usageStep_some]
      have hc : lastIdxP isHeading (l :: ls) = match lastIdxP isHeading ls with
        | some j => some (j + 1)
        | none => if isHeading l then some 0 else none := rfl
      rw [hc]
      by_cases hH : isHeading l <;>
        · simp only [hH, if_true, Bool.false_eq_true, if_false]
          rw [ih]
          cases hrec : lastIdxP isHeading ls <;>
            simp [hH, Nat.add_assoc, Nat.add_comm, Nat.add_left_comm]

theorem usageFoldPhase1 :
    ∀ (ls : List Str) (k : Nat) (y : Option Nat),
      (List.enumFrom k ls).foldl usageStep (none, y)
      = (match firstIdxP isUsageHeading ls with
         | none => (none, y)
         | some j =>
             (some (k + j),
              match lastIdxP isHeading (ls.drop (j + 1)) with
              | some m => some (k + j + 1 + m)
              | none => y)) := by
  intro ls
  induction ls with
  | nil => intro k y; simp [firstIdxP]
  | cons l ls ih =>
      intro k y
      rw [List.enumFrom_cons, List.foldl_cons, usageStep_none]
      have hc : firstIdxP isUsageHeading (l :: ls) =
          if isUsageHeading l then some 0
          else (firstIdxP isUsageHeading ls).map (· + 1) := rfl
      rw [hc]
      by_cases hU : isUsageHeading l
      · simp only [hU, if_true]
        rw [usageFoldPhase2]
        cases hrec : lastIdxP isHeading ls <;>
          simp [hrec, Nat.add_assoc, Nat.add_comm, Nat.add_left_comm]
      · simp only [hU, Bool.false_eq_true, if_false]
        rw [ih]
        cases hrec : firstIdxP isUsageHeading ls with
        | none => simp
        | some j =>
            simp only [Option.map_some]
            cases hrec2 : lastIdxP isHeading (ls.drop (j + 1)) <;>
              simp [hrec2, List.drop_succ_cons, Nat.add_assoc, Nat.add_comm,
                    Nat.add_left_comm]

theorem usageMarkerIndices_eq (lines : List Str) :
    usageMarkerIndices lines =
      (match firstIdxP isUsageHeading lines with
       | none => (none, none)
       | some b =>
           (some b,
            match lastIdxP isHeading (lines.drop (b + 1)) with
            | some m => some (b + 1 + m)
            | none => none)) := by
  unfold usageMarkerIndices
  rw [show lines.enum = List.enumFrom 0 lines from rfl, usageFoldPhase1]
  cases h : firstIdxP isUsageHeading lines with
  | none => rfl
  | some b =>
      cases h2 : lastIdxP isHeading (lines.drop (b + 1)) <;> simp

theorem analyzeFold (lines : List Str) :
    ∀ (el : List (Nat × Str)) (acc : List Function × List Str),
      el.foldl (analyzeStep lines) acc =
        (acc.1 ++ el.filterMap (fnOf lines),
         acc.2 ++ (el.filter (fun p => isSpuriousDecl p.2)).map Prod.snd) := by
  intro el
  induction el with
  | nil => intro acc; simp
  | cons p el ih =>
      intro acc
      rw [List.foldl_cons, ih]
      by_cases hP : isPubFnLine p.2
      · cases hE : extractFnName p.2 with
        | none =>
            simp [analyzeStep, fnOf, isSpuriousDecl, hP, hE,
                  List.filter_cons, List.filterMap_cons]
        | some n =>
            simp [analyzeStep, fnOf, isSpuriousDecl, hP, hE,
                  List.filter_cons, List.filterMap_cons]
      · simp [analyzeStep, fnOf, isSpuriousDecl, hP,
              List.filter_cons, List.filterMap_cons]

theorem enumFilterSnd (q : Str → Bool) :
    ∀ (ls : List Str) (k : Nat),
      ((List.enumFrom k ls).filter (fun p => q p.2)).map Prod.snd =
        ls.filter q := by
  intro ls
  induction ls with
  | nil => intro k; rfl
  | cons l ls ih =>
      intro k
      rw [List.enumFrom_cons]
      by_cases hq : q l <;> simp [List.filter_cons, hq, ih]

theorem analyzeLines_eq (lines : List Str) :
    analyzeLines lines =
      (lines.enum.filterMap (fnOf lines), lines.filter isSpuriousDecl) := by
  unfold analyzeLines
  rw [analyzeFold, show lines.enum = List.enumFrom 0 lines from rfl,
      enumFilterSnd]
  simp

theorem filterMap_skip_idx {β : Type} (f : Nat × Str → Option β) (i : Nat) :
    ∀ (el : List (Nat × Str)), (∀ p ∈ el, p.1 = i → f p = none) →
      el.filterMap f = (el.filter (fun p => p.1 != i)).filterMap f := by
  intro el
  induction el with
  | nil => intro _; rfl
  | cons p el ih =>
      intro h
      by_cases hpi : p.1 = i
      · have hnone : f p = none := h p (List.mem_cons_self p el) hpi
        rw [List.filterMap_cons, hnone, List.filter_cons]
        simp only [hpi, bne_self_eq_false, Bool.false_eq_true, if_false]
        exact ih (fun q hq hqi => h q (List.mem_cons_of_mem p hq) hqi)
      · rw [List.filterMap_cons, List.filter_cons]
        have hne : (p.1 != i) = true := by simpa using hpi
        rw [hne]
        simp only [if_true]
        rw [List.filterMap_cons]
        cases hfp : f p with
        | none => exact ih (fun q hq hqi => h q (List.mem_cons_of_mem p hq) hqi)
        | some b =>
            rw [ih (fun q hq hqi => h q (List.mem_cons_of_mem p hq) hqi)]

/-! ## Claim theorems -/

/-- Claim C6: splicing the rendered text `"X"` into a target file whose
entire contents are the two lines `BEGIN` and `END` (with `"BEGIN"` and
`"END"` as the delimiter pair) produces exactly the three lines `BEGIN`,
`X`, `END`, with no trailing newline after `END`. -/
theorem splice_begin_end_example :
    insertApiDocs ["X".data] ("BEGIN".data) ("END".data)
        (some ("BEGIN\nEND\n".data))
      = .ok (some ("BEGIN\nX\nEND".data)) := by rfl

/-- Claim C10: `insert_api_docs` called with an empty module list returns
immediately without touching the target file and raises no error, even
when the file does not exist (`none`) or lacks the marker lines (any
contents whatsoever). -/
theorem insert_empty_modules_noop (beginM endM : Str) (file : Option Str) :
    insertApiDocs [] beginM endM file = .ok file ∧
    fileAfterInsert [] beginM endM file = file := by
  constructor <;> rfl

/-- Claim C2 (code bug): on the exact two-line file
`/// Does a thing.` / `pub fn foo(x: i32) -> i32 {`, `analyze_rust_module`
produces one Function named `foo` with empty arguments, but its
description is the empty text, not `"Does a thing."`: the backward
doc-comment scan `range(idx - 1, 0, -1)` never examines line 0 of the
file, so a doc comment on the very first line is lost. -/
theorem analyze_first_line_doc_lost_eval :
    analyzeRustModule ("foo".data)
        ("/// Does a thing.\npub fn foo(x: i32) -> i32 \x7b".data)
      = (⟨"foo".data, [⟨"foo".data, ([] : Str), [], none⟩]⟩, []) ∧
    ([] : Str) ≠ "Does a thing.".data := by
  exact ⟨rfl, by decide⟩

/-- Claim C3 (code bug): a declaration preceded by N contiguous `///`
lines should yield exactly those lines' stripped contents in source order.
When the comment block starts at line 0 of the file, the code drops the
first comment line (`range(idx - 1, 0, -1)` excludes index 0): the
two-comment file yields only `"Second."`.  The same declaration pushed one
line down (so the block starts at line 1) yields `"First.Second."`,
confirming the claimed behaviour everywhere except at the start of the
file. -/
theorem analyze_doc_block_at_file_start_eval :
    analyzeRustModule ("m".data)
        ("/// First.\n/// Second.\npub fn bar() \x7b".data)
      = (⟨"m".data, [⟨"bar".data, "Second.".data, [], none⟩]⟩, []) ∧
    analyzeRustModule ("m".data)
        ("use x;\n/// First.\n/// Second.\npub fn bar() \x7b".data)
      = (⟨"m".data, [⟨"bar".data, "First.Second.".data, [], none⟩]⟩, []) ∧
    "Second.".data ≠ "First.Second.".data := by
  exact ⟨rfl, rfl, by decide⟩

/-- Claim C5, counterexample: the claim says the scan selects the FIRST
line containing the begin delimiter and the first line after it containing
the end delimiter.  On a file whose stripped lines are
`BEGIN`, `END`, `BEGIN`, `END` the claimed selection is `(0, 1)`
(`firstMarkersSpec`, written from the specification's words), but the
code's scan returns `(2, 3)`: the last containing line wins. -/
theorem marker_selection_first_counterexample :
    markerIndices ("BEGIN".data) ("END".data)
        ["BEGIN".data, "END".data, "BEGIN".data, "END".data]
      = (some 2, some 3) ∧
    firstMarkersSpec ("BEGIN".data) ("END".data)
        ["BEGIN".data, "END".data, "BEGIN".data, "END".data]
      = (some 0, some 1) ∧
    ((some 2, some 3) : Option Nat × Option Nat) ≠ (some 0, some 1) := by
  exact ⟨rfl, rfl, by decide⟩

/-- Claim C5, amended: when a delimiter occurs on several lines, the scan
of `insert_api_docs` selects, independently for each delimiter, the LAST
line containing it (the returned index contains the delimiter and no
later line does); the end line is not constrained to lie after the begin
line. -/
theorem marker_selection_last (beginM endM : Str) (lines : List Str) :
    markerIndices beginM endM lines =
      (lastContainingIdx beginM lines, lastContainingIdx endM lines) ∧
    (∀ i, lastContainingIdx beginM lines = some i →
       ∃ h : i < lines.length, isSubstrOf beginM (lines.get ⟨i, h⟩) = true ∧
         ∀ (k : Nat) (hk : k < lines.length), i < k →
           isSubstrOf beginM (lines.get ⟨k, hk⟩) = false) ∧
    (∀ i, lastContainingIdx endM lines = some i →
       ∃ h : i < lines.length, isSubstrOf endM (lines.get ⟨i, h⟩) = true ∧
         ∀ (k : Nat) (hk : k < lines.length), i < k →
           isSubstrOf endM (lines.get ⟨k, hk⟩) = false) := by
  refine ⟨markerIndices_eq_last beginM endM lines, ?_, ?_⟩
  · intro i hi
    obtain ⟨h, hp⟩ := lastIdxP_sound (isSubstrOf beginM) lines i hi
    exact ⟨h, hp, lastIdxP_max (isSubstrOf beginM) lines i hi⟩
  · intro i hi
    obtain ⟨h, hp⟩ := lastIdxP_sound (isSubstrOf endM) lines i hi
    exact ⟨h, hp, lastIdxP_max (isSubstrOf endM) lines i hi⟩

/-- Witness for the amended claim C5 at a concrete input. -/
theorem marker_selection_last_witness :
    (markerIndices ("B".data) ("E".data) ["E".data, "B x".data, "B".data]
      = (lastContainingIdx ("B".data) ["E".data, "B x".data, "B".data],
         lastContainingIdx ("E".data) ["E".data, "B x".data, "B".data])) ∧
    lastContainingIdx ("B".data) ["E".data, "B x".data, "B".data] = some 2 ∧
    (∃ h : 2 < (["E".data, "B x".data, "B".data] : List Str).length,
       isSubstrOf ("B".data)
           ((["E".data, "B x".data, "B".data] : List Str).get ⟨2, h⟩) = true ∧
       ∀ (k : Nat)
         (hk : k < (["E".data, "B x".data, "B".data] : List Str).length),
         2 < k →
           isSubstrOf ("B".data)
             ((["E".data, "B x".data, "B".data] : List Str).get ⟨k, hk⟩)
             = false) :=
  ⟨(marker_selection_last ("B".data) ("E".data) _).1,
   by decide,
   (marker_selection_last ("B".data) ("E".data) _).2.1 2 (by decide)⟩

/-- Claim C1, counterexample: splicing `"X"` between unique `BEGIN`/`END`
markers of the file `"  A\nBEGIN\nmid\nEND"` does NOT preserve the bytes
outside the replaced region.  The first line loses its leading blanks
(`"  A"` becomes `"A"`, not a line-ending change), and because the file is
rewritten from position 0 without truncation, a residual `"\nEND"` tail of
the longer original survives after the reconstructed text. -/
theorem insert_preserves_outside_counterexample :
    insertApiDocs ["X".data] ("BEGIN".data) ("END".data)
        (some ("  A\nBEGIN\nmid\nEND".data))
      = .ok (some ("A\nBEGIN\nX\nEND\nEND".data)) ∧
    (pyReadLines ("A\nBEGIN\nX\nEND\nEND".data)).head? = some ("A".data) ∧
    ("A".data : Str) ≠ "  A".data ∧
    ("A\nBEGIN\nX\nEND\nEND".data : Str) ≠ "  A\nBEGIN\nX\nEND".data := by
  exact ⟨rfl, rfl, by decide, by decide⟩

/-- Claim C1, amended: for a target file in which the begin delimiter is
contained in exactly one (stripped) line, the end delimiter in exactly one
later line, and a non-empty block sequence, `insert_api_docs` rewrites the
file as: the lines up to and including the begin-marker line, the blocks,
and the lines from the end-marker line onward — where every preserved line
is whitespace-stripped (each part additionally outer-stripped, so blank
boundary lines collapse), the parts are joined with single newlines, and
any bytes of the original file beyond the new text's length are left in
place (the write does not truncate). -/
theorem insert_between_unique_markers
    (blocks : List Str) (beginM endM content : Str) (b e : Nat)
    (hbl : blocks ≠ [])
    (hbe : b < e)
    (he : e < (strippedLines content).length)
    (hbu : ∀ (i : Nat) (h : i < (strippedLines content).length),
        isSubstrOf beginM ((strippedLines content).get ⟨i, h⟩) = true ↔ i = b)
    (heu : ∀ (i : Nat) (h : i < (strippedLines content).length),
        isSubstrOf endM ((strippedLines content).get ⟨i, h⟩) = true ↔ i = e) :
    insertApiDocs blocks beginM endM (some content) =
      .ok (some (writeNoTruncate content (joinSep nl
        [stripWs (joinSep nl ((strippedLines content).take (b + 1))),
         joinSep nl blocks,
         stripWs (joinSep nl ((strippedLines content).drop e))]))) := by
  have hb : b < (strippedLines content).length := Nat.lt_trans hbe he
  have hlastB : lastIdxP (isSubstrOf beginM) (strippedLines content) = some b :=
    lastIdxP_unique _ _ b hb ((hbu b hb).mpr rfl)
      (fun i h hp => (hbu i h).mp hp)
  have hlastE : lastIdxP (isSubstrOf endM) (strippedLines content) = some e :=
    lastIdxP_unique _ _ e he ((heu e he).mpr rfl)
      (fun i h hp => (heu i h).mp hp)
  have hne : blocks.isEmpty = false := by
    cases blocks with
    | nil => exact absurd rfl hbl
    | cons x xs => rfl
  have hmk : markerIndices beginM endM (strippedLines content)
      = (some b, some e) := by
    rw [markerIndices_eq_last]
    unfold lastContainingIdx
    rw [hlastB, hlastE]
  have hsplice : spliceContent (joinSep nl blocks) beginM endM content =
      .ok (joinSep nl
        [stripWs (joinSep nl ((strippedLines content).take (b + 1))),
         joinSep nl blocks,
         stripWs (joinSep nl ((strippedLines content).drop e))]) := by
    simp only [spliceContent]
    rw [hmk]
    dsimp only
    rw [if_neg (Nat.ne_of_lt hbe)]
  unfold insertApiDocs
  rw [hne]
  simp only [Bool.false_eq_true, if_false]
  rw [hsplice]

/-- Witness for the amended claim C1 at a concrete input. -/
theorem insert_between_unique_markers_witness :
    (["D1".data, "D2".data] : List Str) ≠ [] ∧
    1 < 3 ∧
    3 < (strippedLines ("A\nBEGIN\nmid\nEND\nZ".data)).length ∧
    (∀ (i : Nat)
       (h : i < (strippedLines ("A\nBEGIN\nmid\nEND\nZ".data)).length),
        isSubstrOf ("BEGIN".data)
          ((strippedLines ("A\nBEGIN\nmid\nEND\nZ".data)).get ⟨i, h⟩) = true ↔
          i = 1) ∧
    (∀ (i : Nat)
       (h : i < (strippedLines ("A\nBEGIN\nmid\nEND\nZ".data)).length),
        isSubstrOf ("END".data)
          ((strippedLines ("A\nBEGIN\nmid\nEND\nZ".data)).get ⟨i, h⟩) = true ↔
          i = 3) ∧
    insertApiDocs ["D1".data, "D2".data] ("BEGIN".data) ("END".data)
        (some ("A\nBEGIN\nmid\nEND\nZ".data))
      = .ok (some ("A\nBEGIN\nD1\nD2\nEND\nZ".data)) :=
  ⟨by decide, by decide, by decide, by decide, by decide,
   (insert_between_unique_markers ["D1".data, "D2".data]
      ("BEGIN".data) ("END".data) ("A\nBEGIN\nmid\nEND\nZ".data) 1 3
      (by decide) (by decide) (by decide) (by decide) (by decide)).trans
    (by rfl)⟩

/-- Claim C4: with a non-empty block sequence, when at least one delimiter
is contained in no (stripped) line of the target file, or when both
delimiters resolve to the same single line, `insert_api_docs` raises
`ValueError` and the target file is left unmodified. -/
theorem insert_missing_or_degenerate_markers_error
    (blocks : List Str) (beginM endM content : Str)
    (hbl : blocks ≠ [])
    (hcase :
      (∀ l ∈ strippedLines content, isSubstrOf beginM l = false) ∨
      (∀ l ∈ strippedLines content, isSubstrOf endM l = false) ∨
      (∃ i, lastContainingIdx beginM (strippedLines content) = some i ∧
            lastContainingIdx endM (strippedLines content) = some i)) :
    (∃ msg, insertApiDocs blocks beginM endM (some content) = .error msg) ∧
    fileAfterInsert blocks beginM endM (some content) = some content := by
  have hne : blocks.isEmpty = false := by
    cases blocks with
    | nil => exact absurd rfl hbl
    | cons x xs => rfl
  have hnone : ∀ (m : Str),
      (∀ l ∈ strippedLines content, isSubstrOf m l = false) →
      lastContainingIdx m (strippedLines content) = none := by
    intro m hall
    cases hlast : lastIdxP (isSubstrOf m) (strippedLines content) with
    | none => exact hlast
    | some j =>
        obtain ⟨hj, hpj⟩ := lastIdxP_sound _ _ j hlast
        have hmem := hall _ (List.get_mem _ _ hj)
        rw [hmem] at hpj
        exact Bool.noConfusion hpj
  have herr : ∃ msg, spliceContent (joinSep nl blocks) beginM endM content
      = .error msg := by
    rcases hcase with hB | hE | ⟨i, hiB, hiE⟩
    · refine ⟨"begin or end marker not found", ?_⟩
      simp only [spliceContent]
      rw [markerIndices_eq_last, hnone beginM hB]
    · refine ⟨"begin or end marker not found", ?_⟩
      simp only [spliceContent]
      rw [markerIndices_eq_last, hnone endM hE]
      cases hEB : lastContainingIdx beginM (strippedLines content) <;> rfl
    · refine ⟨"empty region", ?_⟩
      simp only [spliceContent]
      rw [markerIndices_eq_last, hiB, hiE]
      dsimp only
      rw [if_pos rfl]
  obtain ⟨msg, hmsg⟩ := herr
  refine ⟨⟨msg, ?_⟩, ?_⟩
  · unfold insertApiDocs
    rw [hne]
    simp only [Bool.false_eq_true, if_false]
    rw [hmsg]
  · unfold fileAfterInsert insertApiDocs
    rw [hne]
    simp only [Bool.false_eq_true, if_false]
    rw [hmsg]

/-- Witness for claim C4 at a concrete input. -/
theorem insert_missing_or_degenerate_markers_error_witness :
    (["X".data] : List Str) ≠ [] ∧
    (∀ l ∈ strippedLines ("no markers\nhere".data),
       isSubstrOf ("BEGIN".data) l = false) ∧
    (∃ msg, insertApiDocs ["X".data] ("BEGIN".data) ("END".data)
        (some ("no markers\nhere".data)) = .error msg) ∧
    fileAfterInsert ["X".data] ("BEGIN".data) ("END".data)
        (some ("no markers\nhere".data)) = some ("no markers\nhere".data) := by
  refine ⟨by decide, by decide, ?_⟩
  have h := insert_missing_or_degenerate_markers_error ["X".data]
    ("BEGIN".data) ("END".data) ("no markers\nhere".data)
    (by decide) (Or.inl (by decide))
  exact ⟨h.1, h.2⟩

/-- Claim C7, counterexample: the claim says the usage banner is spliced
between the `# Usage` heading line and the FIRST heading line after it.
On a README with sections `# Usage`, `# A`, `# B`, the first heading after
`# Usage` is `# A` (index 2), but the scan selects the last heading `# B`
(index 4), and the spliced result no longer contains the `# A` line that
the claim requires to be preserved. -/
theorem usage_region_first_heading_counterexample :
    binUsageStep ⟨0, "usage".data⟩ ("# Usage\nold\n# A\nmid\n# B\ntail".data)
      = .updated ("# Usage\n\nusage\n\n# B\ntail".data) ∧
    firstHeadingAfter 0
        (strippedLines ("# Usage\nold\n# A\nmid\n# B\ntail".data))
      = some 2 ∧
    usageMarkerIndices (strippedLines ("# Usage\nold\n# A\nmid\n# B\ntail".data))
      = (some 0, some 4) ∧
    (("# A".data : Str) ∈ pyReadLines ("# Usage\n\nusage\n\n# B\ntail".data) →
      False) := by
  exact ⟨rfl, rfl, rfl, by decide⟩

/-- Claim C7, amended: the usage-inlining step of the `bin` build task
splices the binary's stripped usage banner (surrounded by blank lines)
into the README between the first heading line containing `# Usage` and
the LAST heading line after it; it returns the binary's own non-zero
status when the freshly built binary failed, and returns 2 when either
heading boundary cannot be found. -/
theorem bin_usage_step_spec (binary : RunResult) (readme : Str) :
    (binary.ok = false →
       binUsageStep binary readme = .exitCode binary.returnCode ∧
       binary.returnCode ≠ 0) ∧
    (∀ b e, binary.ok = true →
       firstIdxP isUsageHeading (strippedLines readme) = some b →
       lastHeadingAfter b (strippedLines readme) = some e →
       binUsageStep binary readme = .updated (joinSep nl
         [stripWs (joinSep nl ((strippedLines readme).take (b + 1))),
          ([] : Str), stripWs binary.stdout, ([] : Str),
          stripWs (joinSep nl ((strippedLines readme).drop e))])) ∧
    (binary.ok = true →
       (firstIdxP isUsageHeading (strippedLines readme) = none ∨
        (∃ b, firstIdxP isUsageHeading (strippedLines readme) = some b ∧
              lastHeadingAfter b (strippedLines readme) = none)) →
       binUsageStep binary readme = .exitCode 2) := by
  refine ⟨?_, ?_, ?_⟩
  · intro hok
    constructor
    · unfold binUsageStep
      rw [hok]
      rfl
    · intro hzero
      simp [RunResult.ok, hzero] at hok
  · intro b e hok hfst hlast
    unfold binUsageStep
    rw [hok]
    simp only [Bool.not_true, Bool.false_eq_true, if_false]
    rw [usageMarkerIndices_eq, hfst]
    dsimp only
    unfold lastHeadingAfter at hlast
    cases hrec : lastIdxP isHeading ((strippedLines readme).drop (b + 1)) with
    | none => rw [hrec] at hlast; exact Option.noConfusion hlast
    | some m =>
        rw [hrec] at hlast
        injection hlast with hlast
        subst hlast
        rfl
  · intro hok hcase
    unfold binUsageStep
    rw [hok]
    simp only [Bool.not_true, Bool.false_eq_true, if_false]
    rw [usageMarkerIndices_eq]
    rcases hcase with hnone | ⟨b, hfst, hlast⟩
    · rw [hnone]
    · rw [hfst]
      dsimp only
      unfold lastHeadingAfter at hlast
      cases hrec : lastIdxP isHeading ((strippedLines readme).drop (b + 1)) with
      | none => rfl
      | some m => rw [hrec] at hlast; exact Option.noConfusion hlast

/-- Witness for the amended claim C7 at concrete inputs, one per case. -/
theorem bin_usage_step_spec_witness :
    ((⟨3, "x".data⟩ : RunResult).ok = false ∧
      binUsageStep ⟨3, "x".data⟩ ("# Usage\n# End".data) = .exitCode 3 ∧
      ((⟨3, "x".data⟩ : RunResult).returnCode ≠ 0)) ∧
    ((⟨0, " use me ".data⟩ : RunResult).ok = true ∧
      firstIdxP isUsageHeading
          (strippedLines ("intro\n# Usage\nold\n# End\nz".data))
        = some 1 ∧
      lastHeadingAfter 1 (strippedLines ("intro\n# Usage\nold\n# End\nz".data))
        = some 3 ∧
      binUsageStep ⟨0, " use me ".data⟩ ("intro\n# Usage\nold\n# End\nz".data)
        = .updated ("intro\n# Usage\n\nuse me\n\n# End\nz".data)) ∧
    ((⟨0, "x".data⟩ : RunResult).ok = true ∧
      firstIdxP isUsageHeading (strippedLines ("plain text".data)) = none ∧
      binUsageStep ⟨0, "x".data⟩ ("plain text".data) = .exitCode 2) :=
  ⟨⟨by decide,
    ((bin_usage_step_spec ⟨3, "x".data⟩ ("# Usage\n# End".data)).1
        (by decide)).1,
    ((bin_usage_step_spec ⟨3, "x".data⟩ ("# Usage\n# End".data)).1
        (by decide)).2⟩,
   ⟨by decide, by decide, by decide,
    ((bin_usage_step_spec ⟨0, " use me ".data⟩
        ("intro\n# Usage\nold\n# End\nz".data)).2.1 1 3
      (by decide) (by decide) (by decide)).trans (by rfl)⟩,
   ⟨by decide, by decide,
    (bin_usage_step_spec ⟨0, "x".data⟩ ("plain text".data)).2.2
      (by decide) (Or.inl (by decide))⟩⟩

/-- Claim C8: a line whose stripped form starts with `pub fn` but which
does not match the full name pattern is recorded as a warning, produces no
Function, and the remaining declaration lines are processed as if the line
had been removed from the index set, so every other well-formed
declaration still yields its Function. -/
theorem spurious_decl_warn_and_continue
    (lines : List Str) (i : Nat) (h : i < lines.length)
    (hpre : isPubFnLine (lines.get ⟨i, h⟩) = true)
    (hpat : extractFnName (lines.get ⟨i, h⟩) = none) :
    (lines.get ⟨i, h⟩) ∈ (analyzeLines lines).2 ∧
    (analyzeLines lines).1 =
      (lines.enum.filter (fun p => p.1 != i)).filterMap (fnOf lines) := by
  rw [analyzeLines_eq]
  constructor
  · apply List.mem_filter.mpr
    refine ⟨List.get_mem _ _ h, ?_⟩
    simp only [isSpuriousDecl, Bool.and_eq_true]
    exact ⟨hpre, by rw [hpat]; rfl⟩
  · apply filterMap_skip_idx
    intro p hp hpi
    obtain ⟨-, hlt, hsnd⟩ := List.mem_enumFrom hp
    subst hpi
    have hfn : extractFnName p.2 = none := by rw [hsnd]; exact hpat
    unfold fnOf
    rw [hfn]
    cases hb : isPubFnLine p.2 <;> simp

/-- Witness for claim C8 at a concrete input: `pub fnx(` matches the
prefix but not the pattern; it lands in the warnings and the later
`pub fn ok() {` still yields its Function. -/
theorem spurious_decl_warn_and_continue_witness :
    isPubFnLine ("pub fnx(".data) = true ∧
    extractFnName ("pub fnx(".data) = none ∧
    (("pub fnx(".data : Str) ∈
      (analyzeLines ["/// d".data, "pub fnx(".data, "pub fn ok() \x7b".data]).2) ∧
    (analyzeLines ["/// d".data, "pub fnx(".data, "pub fn ok() \x7b".data]).1 =
      ((["/// d".data, "pub fnx(".data, "pub fn ok() \x7b".data] :
          List Str).enum.filter (fun p => p.1 != 1)).filterMap
        (fnOf ["/// d".data, "pub fnx(".data, "pub fn ok() \x7b".data]) ∧
    (analyzeLines ["/// d".data, "pub fnx(".data, "pub fn ok() \x7b".data]).1 =
      [⟨"ok".data, ([] : Str), [], none⟩] :=
  ⟨by decide, by decide,
   (spurious_decl_warn_and_continue
      ["/// d".data, "pub fnx(".data, "pub fn ok() \x7b".data] 1 (by decide)
      (by decide) (by decide)).1,
   (spurious_decl_warn_and_continue
      ["/// d".data, "pub fnx(".data, "pub fn ok() \x7b".data] 1 (by decide)
      (by decide) (by decide)).2,
   by rfl⟩

/-- Claim C9: `ensure_rustc_version` exits with status 127 when the Rust
compiler could not be invoked; when the compiler runs and reports a
well-formed version, it exits with the non-zero status 1 if the version is
below the required minimum 1.10.0, and succeeds otherwise. -/
theorem ensure_rustc_version_spec (r : RunResult) :
    (r.ok = false → ensureRustcVersion r = .exit 127) ∧
    (∀ (tok : Str) (v : SemVer),
       r.ok = true →
       rustcVersionToken r.stdout = some tok →
       parseSemVer tok = some v →
       ((semverBelow v minRustcVersion = true →
           ensureRustcVersion r = .exit 1) ∧
        (semverBelow v minRustcVersion = false →
           ensureRustcVersion r = .passed))) := by
  constructor
  · intro hok
    unfold ensureRustcVersion
    rw [hok]
    rfl
  · intro tok v hok htok hv
    constructor <;> intro hcmp <;>
      · unfold ensureRustcVersion
        rw [hok]
        simp only [Bool.not_true, Bool.false_eq_true, if_false]
        rw [htok]
        dsimp only
        rw [hv]
        dsimp only
        rw [hcmp]
        rfl

/-- Witness for claim C9 at concrete inputs, one per case. -/
theorem ensure_rustc_version_spec_witness :
    ((⟨1, [] ⟩ : RunResult).ok = false ∧
      ensureRustcVersion ⟨1, [] ⟩ = .exit 127) ∧
    ((⟨0, "rustc 1.9.0 (abc 2016-05-16)".data⟩ : RunResult).ok = true ∧
      rustcVersionToken ("rustc 1.9.0 (abc 2016-05-16)".data)
        = some ("1.9.0".data) ∧
      parseSemVer ("1.9.0".data) = some ⟨1, 9, 0, none⟩ ∧
      semverBelow ⟨1, 9, 0, none⟩ minRustcVersion = true ∧
      ensureRustcVersion ⟨0, "rustc 1.9.0 (abc 2016-05-16)".data⟩
        = .exit 1) ∧
    ((⟨0, "rustc 1.10.0 (cfcb716cf 2016-07-03)".data⟩ : RunResult).ok
        = true ∧
      rustcVersionToken ("rustc 1.10.0 (cfcb716cf 2016-07-03)".data)
        = some ("1.10.0".data) ∧
      parseSemVer ("1.10.0".data) = some ⟨1, 10, 0, none⟩ ∧
      semverBelow ⟨1, 10, 0, none⟩ minRustcVersion = false ∧
      ensureRustcVersion ⟨0, "rustc 1.10.0 (cfcb716cf 2016-07-03)".data⟩
        = .passed) :=
  ⟨⟨by decide, (ensure_rustc_version_spec ⟨1, [] ⟩).1 (by decide)⟩,
   ⟨by decide, by decide, by decide, by decide,
    ((ensure_rustc_version_spec ⟨0, "rustc 1.9.0 (abc 2016-05-16)".data⟩).2
        ("1.9.0".data) ⟨1, 9, 0, none⟩ (by decide) (by decide) (by decide)).1
      (by decide)⟩,
   ⟨by decide, by decide, by decide, by decide,
    ((ensure_rustc_version_spec
        ⟨0, "rustc 1.10.0 (cfcb716cf 2016-07-03)".data⟩).2
        ("1.10.0".data) ⟨1, 10, 0, none⟩ (by decide) (by decide)
        (by decide)).2
      (by decide)⟩⟩

end Rush
